import Mathlib

/-!
Verification of the peer-to-peer mesh layer of tradewars-ansi: envelope
construction (src/twansi/net/messages.py), the reliable UDP mesh
(src/twansi/net/reliable.py), peer membership (src/twansi/net/membership.py),
policy defaults (src/twansi/policy.py), and the gossip and snapshot-merge
paths (src/twansi/main.py with src/twansi/state/store_sqlite.py).

Modelling conventions: Python floats (timestamps, health scores) are
rationals; Python ints are Nat or Int; dicts are association lists whose keys
are unique in every reachable state; byte strings are left opaque. Every
definition is a transliteration of the named source location; deviations are
called out in the doc comment of the definition concerned.
-/

namespace Twansi

/-- PROTOCOL_VERSION constant (messages.py line 8). -/
def PROTOCOL_VERSION : Nat := 1

/-- Keys of the dict literal that make_envelope returns (messages.py lines
32-43), in source order. The literal has no epoch key. -/
def envelopeKeys : List String :=
  ["v", "type", "sender", "seq", "ack", "ack_bits", "ts", "shard", "flags", "payload"]

/-- Keyword-only parameter names of make_envelope (messages.py lines 15-26).
The signature declares no catch-all keyword parameter. -/
def makeEnvelopeParams : List String :=
  ["msg_type", "sender", "seq", "ack", "ack_bits", "shard", "payload", "reliable", "ack_only"]

/-- Keyword-argument names that ReliableMesh.send passes to make_envelope
(reliable.py lines 96-106). -/
def sendCallKeywords : List String :=
  ["msg_type", "sender", "seq", "ack", "ack_bits", "shard", "epoch", "payload", "reliable"]

/-- Keyword-argument names that the ACK synthesis inside ReliableMesh.recv_loop
passes to make_envelope (reliable.py lines 162-172). -/
def ackSynthCallKeywords : List String :=
  ["msg_type", "sender", "seq", "ack", "ack_bits", "shard", "epoch", "payload", "ack_only"]

/-- Python calling convention: a call raises TypeError when it passes a keyword
argument that is not among the callee's declared parameters and the callee has
no catch-all keyword parameter. -/
def callRaisesTypeError (params kwargs : List String) : Bool :=
  kwargs.any (fun k => !(params.contains k))

/-- Flags list built by make_envelope (messages.py lines 27-31). -/
def makeFlags (reliable ack_only : Bool) : List String :=
  (if reliable then ["reliable"] else []) ++ (if ack_only then ["ack_only"] else [])

/-- The envelope dict built by make_envelope (messages.py lines 32-43), one
field per key of the dict literal; the payload is opaque to the mesh and kept
as an abstract string. There is no epoch field: the function neither accepts
nor emits one. -/
structure Envelope where
  v : Nat
  type : String
  sender : String
  seq : Nat
  ack : Nat
  ack_bits : Nat
  ts : Int
  shard : String
  flags : List String
  payload : String
deriving DecidableEq, Repr

/-- make_envelope (messages.py lines 15-43); the ts field is
int(time.time() * 1000) in the source and is passed in here as the ambient
clock value. -/
def make_envelope (msg_type sender : String) (seq ack ack_bits : Nat)
    (shard : String) (payload : String) (reliable ack_only : Bool) (ts : Int) : Envelope :=
  { v := PROTOCOL_VERSION, type := msg_type, sender := sender, seq := seq,
    ack := ack, ack_bits := ack_bits, ts := ts, shard := shard,
    flags := makeFlags reliable ack_only, payload := payload }

/-- Value of int(msg.get("epoch", -1)) in recv_loop (reliable.py line 149) for
a message whose key list is keys: the stored value when the key is present,
the default -1 otherwise. -/
def msgGetEpoch (keys : List String) (value : Int) : Int :=
  if keys.contains "epoch" then value else -1

/-- Epoch filter of recv_loop (reliable.py lines 149-150): an authenticated
message is dropped when the epoch read from it differs from the mesh's
configured epoch. -/
def recvDropsForEpoch (keys : List String) (value meshEpoch : Int) : Bool :=
  msgGetEpoch keys value != meshEpoch

/-- Default protocol_epoch from policy.py _default_policy_dict (line 26). -/
def defaultProtocolEpoch : Int := 1

/-- C1: refuted as stated; the code is the slip. ReliableMesh.send passes an
epoch keyword argument that make_envelope does not declare, so in the source
every send (and the ACK synthesis in recv_loop, and the repository's own
tests/test_protocol.py call) raises TypeError instead of constructing an
envelope; moreover the dict make_envelope builds has no epoch key at all, so
even the envelope that the accepted keywords describe would be read as
epoch = -1 by the receive loop and dropped for any configured epoch other
than -1, in particular the default epoch 1. -/
theorem c1_no_epoch_in_envelope :
    callRaisesTypeError makeEnvelopeParams sendCallKeywords = true ∧
    callRaisesTypeError makeEnvelopeParams ackSynthCallKeywords = true ∧
    envelopeKeys.contains "epoch" = false ∧
    (∀ v : Int, recvDropsForEpoch envelopeKeys v defaultProtocolEpoch = true) := by
  refine ⟨by decide, by decide, by decide, fun v => ?_⟩
  simp [recvDropsForEpoch, msgGetEpoch, envelopeKeys, defaultProtocolEpoch]

/-- Lookup d.get(k, dflt) on a Python dict with string keys modelled as an
association list. -/
def dictGet (d : List (String × Nat)) (k : String) (dflt : Nat) : Nat :=
  match d.find? (fun kv => kv.1 == k) with
  | some kv => kv.2
  | none => dflt

/-- Assignment d[k] = v on a Python dict with string keys modelled as an
association list: replace the entry when the key is present, append otherwise. -/
def dictSet (d : List (String × Nat)) (k : String) (v : Nat) : List (String × Nat) :=
  if d.any (fun kv => kv.1 == k) then
    d.map (fun kv => if kv.1 == k then (kv.1, v) else kv)
  else d ++ [(k, v)]

/-- A pending reliable packet (reliable.py lines 14-19); raw is the canonical
signed byte string in the source and is modelled by the envelope it encodes. -/
structure PendingPacket where
  addr : String × Nat
  raw : Envelope
  sent_ts : Rat
  retries : Nat
deriving DecidableEq, Repr

/-- Assignment self.pending[seq] = pkt (reliable.py lines 110 and 131) on the
pending dict, keyed by sequence number. -/
def pendingSet (d : List (Nat × PendingPacket)) (k : Nat) (v : PendingPacket) :
    List (Nat × PendingPacket) :=
  if d.any (fun kv => kv.1 == k) then
    d.map (fun kv => if kv.1 == k then (kv.1, v) else kv)
  else d ++ [(k, v)]

/-- Mutable state of a ReliableMesh instance (reliable.py lines 32-43). The
transport, the authenticator and the on_message callback are external
collaborators, not state. -/
structure MeshState where
  sender_id : String
  shard : String
  epoch : Int
  next_seq : Nat
  highest_remote_seq : List (String × Nat)
  recv_window : List (String × Nat)
  pending : List (Nat × PendingPacket)
deriving DecidableEq, Repr

/-- Freshly constructed mesh (reliable.py lines 39-42): next_seq starts at 1,
the tracking dicts and the pending map start empty. -/
def mkMesh (sid shard : String) (epoch : Int) : MeshState :=
  { sender_id := sid, shard := shard, epoch := epoch, next_seq := 1,
    highest_remote_seq := [], recv_window := [], pending := [] }

/-- ReliableMesh._ack_bits (reliable.py lines 54-57): the highest tracked
sequence and the receive window recorded under the given sender key. -/
def MeshState.ackBitsFor (m : MeshState) (sender : String) : Nat × Nat :=
  (dictGet m.highest_remote_seq sender 0, dictGet m.recv_window sender 0)

/-- Window arithmetic of ReliableMesh._track_remote_seq (reliable.py lines
62-69) on one (highest, bits) pair for an incoming sequence seq. -/
def trackRemoteSeqPair (highest bits seq : Nat) : Nat × Nat :=
  if highest < seq then
    (seq, ((bits <<< min 64 (seq - highest)) ||| 1) &&& ((1 <<< 64) - 1))
  else
    if highest - seq < 64 then (highest, bits ||| (1 <<< (highest - seq)))
    else (highest, bits)

/-- ReliableMesh._track_remote_seq (reliable.py lines 59-71): reads the pair
recorded for the sender (defaulting to (0, 0)), updates it with
trackRemoteSeqPair and writes it back. -/
def MeshState.trackRemoteSeq (m : MeshState) (sender : String) (seq : Nat) : MeshState :=
  let r := trackRemoteSeqPair (dictGet m.highest_remote_seq sender 0)
    (dictGet m.recv_window sender 0) seq
  { m with highest_remote_seq := dictSet m.highest_remote_seq sender r.1,
           recv_window := dictSet m.recv_window sender r.2 }

/-- Per-sequence removal test of ReliableMesh._apply_ack (reliable.py lines
76-82): seq == ack, or seq < ack with delta := ack - seq in 1..64 and
(ack_bits >> (delta - 1)) & 1 set. -/
def ackSatisfied (ack ack_bits seq : Nat) : Bool :=
  seq == ack ||
    (decide (seq < ack) &&
      (decide (1 ≤ ack - seq) && decide (ack - seq ≤ 64) &&
        ((ack_bits >>> (ack - seq - 1)) &&& 1 == 1)))

/-- ReliableMesh._apply_ack (reliable.py lines 73-84): every pending entry
whose sequence satisfies the removal test is popped; the dict's keys are
unique, so collecting the keys and popping them is the same as filtering. -/
def MeshState.applyAck (m : MeshState) (ack ack_bits : Nat) : MeshState :=
  { m with pending := m.pending.filter (fun kv => !(ackSatisfied ack ack_bits kv.1)) }

/-- ReliableMesh.send (reliable.py lines 92-111): seq := next_seq, next_seq is
incremented, the acknowledgment state is read with _ack_bits(self.sender_id) —
the mesh's own identifier, not anything derived from the destination address —
the envelope is built and, when reliable, a PendingPacket is stored under seq.
In the source the inner make_envelope call also passes epoch=self.epoch, a
keyword make_envelope rejects with TypeError (see c1_no_epoch_in_envelope);
the model carries on with the envelope built from the accepted keywords, which
is what every statement of send after that call assumes. Returns the new
state, the built envelope and the returned sequence number. -/
def MeshState.send (m : MeshState) (msg_type payload : String)
    (addr : String × Nat) (reliable : Bool) (now : Rat) (ts : Int) :
    MeshState × Envelope × Nat :=
  let seq := m.next_seq
  let ab := m.ackBitsFor m.sender_id
  let env := make_envelope msg_type m.sender_id seq ab.1 ab.2 m.shard payload reliable false ts
  let pkt : PendingPacket := ⟨addr, env, now, 0⟩
  let m1 := { m with next_seq := m.next_seq + 1 }
  let m2 :=
    if reliable then { m1 with pending := pendingSet m1.pending seq pkt }
    else m1
  (m2, env, seq)

/-- Mesh state used to refute C3: the mesh has tracked sequences from remote
peer peerB up to highest 5 with window bits 3. -/
def c3Mesh : MeshState :=
  { mkMesh "nodeA" "alpha" 1 with
    highest_remote_seq := [("peerB", 5)], recv_window := [("peerB", 3)] }

/-- C3: refuted as stated; the code is the slip. send looks the acknowledgment
state up under the mesh's own sender_id (reliable.py line 95), never under an
identifier of the destination peer (the destination is only an address), so
the envelope sent to peerB's address carries ack = 0 and ack_bits = 0 even
though the window tracked for peerB is (5, 3); the tracked state would only be
attached if a remote peer carried the mesh's own sender_id. This contradicts
the piggyback design stated in the spec and in the code's own comment
(reliable.py line 161). -/
theorem c3_send_acks_keyed_by_own_id :
    (c3Mesh.send "EVENT_BATCH" "p" ("10.0.0.2", 9999) true 0 0).2.1.ack = 0 ∧
    (c3Mesh.send "EVENT_BATCH" "p" ("10.0.0.2", 9999) true 0 0).2.1.ack_bits = 0 ∧
    c3Mesh.ackBitsFor "peerB" = (5, 3) ∧
    c3Mesh.ackBitsFor c3Mesh.sender_id = (0, 0) := by
  refine ⟨by decide, by decide, by decide, by decide⟩

/-- Modelled from the spec: the receive-window update as section 4.2 words it.
On sequence s with state (highest, bits): if s > highest, bits becomes
((bits shifted left by min(64, s - highest)) with bit 0 set) truncated to 64
bits and highest becomes s; if s ≤ highest and highest - s < 64, bit
(highest - s) of bits is set; otherwise the state is unchanged. -/
def trackRemoteSeqFromSpec (highest bits seq : Nat) : Nat × Nat :=
  if highest < seq then
    (seq, ((bits <<< min 64 (seq - highest)) ||| 1) % 2 ^ 64)
  else
    if highest - seq < 64 then (highest, bits ||| 2 ^ (highest - seq))
    else (highest, bits)

/-- C5: confirmed. The source's _track_remote_seq window arithmetic (mask with
(1 << 64) - 1, set bit via 1 << diff) agrees with the algorithm exactly as the
spec describes it (truncation to 64 bits, setting bit (highest - s)) on every
prior window state and every incoming sequence. -/
theorem c5_track_remote_seq_matches_spec (highest bits seq : Nat) :
    trackRemoteSeqPair highest bits seq = trackRemoteSeqFromSpec highest bits seq := by
  unfold trackRemoteSeqPair trackRemoteSeqFromSpec
  have hmask : ((bits <<< min 64 (seq - highest)) ||| 1) &&& ((1 <<< 64) - 1)
      = ((bits <<< min 64 (seq - highest)) ||| 1) % 2 ^ 64 := by
    rw [Nat.one_shiftLeft, Nat.and_pow_two_sub_one_eq_mod]
  have hbit : bits ||| (1 <<< (highest - seq)) = bits ||| 2 ^ (highest - seq) := by
    rw [Nat.one_shiftLeft]
  rw [hmask, hbit]

/-- Bridge between the source's bit test ((ack_bits >> k) & 1) == 1 and
Nat.testBit. -/
lemma shiftRight_and_one_beq (bits k : Nat) :
    ((bits >>> k) &&& 1 == 1) = Nat.testBit bits k := by
  rw [Nat.and_one_is_mod, Nat.testBit_to_div_mod, Nat.shiftRight_eq_div_pow,
    Bool.eq_iff_iff]
  simp only [beq_iff_eq, decide_eq_true_eq]

/-- Removal condition on a pending sequence p exactly as claim C4 words it. -/
def ackRemovesSpec (ack ack_bits p : Nat) : Prop :=
  p = ack ∨ (p < ack ∧ 1 ≤ ack - p ∧ ack - p ≤ 64 ∧ Nat.testBit ack_bits (ack - p - 1) = true)

/-- The source's removal test decides ackRemovesSpec. -/
lemma ackSatisfied_iff (ack ack_bits p : Nat) :
    ackSatisfied ack ack_bits p = true ↔ ackRemovesSpec ack ack_bits p := by
  unfold ackSatisfied ackRemovesSpec
  rw [shiftRight_and_one_beq]
  simp [Bool.or_eq_true, Bool.and_eq_true, beq_iff_eq, decide_eq_true_iff, and_assoc]

/-- C4: confirmed. Applying an inbound (ack, ack_bits) pair removes a pending
entry exactly when its sequence p satisfies p = ack, or p < ack with
1 ≤ ack - p ≤ 64 and bit (ack - p - 1) of ack_bits set; in particular, for
s1 < s2 with s2 - s1 ≤ 64, the acknowledgment (ack = s2, ack_bits with bit
(s2 - s1 - 1) set) removes the pending entries for s1 and s2 and leaves every
other pending entry in place. -/
theorem c4_apply_ack_characterization :
    (∀ (m : MeshState) (ack ack_bits : Nat) (kv : Nat × PendingPacket),
      kv ∈ (m.applyAck ack ack_bits).pending ↔
        kv ∈ m.pending ∧ ¬ ackRemovesSpec ack ack_bits kv.1) ∧
    (∀ (m : MeshState) (s1 s2 : Nat) (kv : Nat × PendingPacket),
      s1 < s2 → s2 - s1 ≤ 64 → kv ∈ m.pending →
      ((kv.1 = s1 ∨ kv.1 = s2) → kv ∉ (m.applyAck s2 (1 <<< (s2 - s1 - 1))).pending) ∧
      (kv.1 ≠ s1 → kv.1 ≠ s2 → kv ∈ (m.applyAck s2 (1 <<< (s2 - s1 - 1))).pending)) := by
  have hmem : ∀ (m : MeshState) (ack ack_bits : Nat) (kv : Nat × PendingPacket),
      kv ∈ (m.applyAck ack ack_bits).pending ↔
        kv ∈ m.pending ∧ ¬ ackRemovesSpec ack ack_bits kv.1 := by
    intro m ack ack_bits kv
    unfold MeshState.applyAck
    simp only [List.mem_filter, Bool.not_eq_true']
    constructor
    · rintro ⟨h1, h2⟩
      exact ⟨h1, fun hc => by simp [(ackSatisfied_iff ack ack_bits kv.1).2 hc] at h2⟩
    · rintro ⟨h1, h2⟩
      refine ⟨h1, ?_⟩
      cases hb : ackSatisfied ack ack_bits kv.1
      · rfl
      · exact absurd ((ackSatisfied_iff ack ack_bits kv.1).1 hb) h2
  refine ⟨hmem, ?_⟩
  intro m s1 s2 kv h12 h64 hkv
  have hbit : Nat.testBit (1 <<< (s2 - s1 - 1)) (s2 - s1 - 1) = true := by
    rw [Nat.one_shiftLeft, Nat.testBit_two_pow]
    simp
  constructor
  · rintro (h | h) hin
    · rcases (hmem m s2 (1 <<< (s2 - s1 - 1)) kv).1 hin with ⟨-, hno⟩
      exact hno (Or.inr ⟨h ▸ h12, by omega, by omega, by rw [h]; exact hbit⟩)
    · rcases (hmem m s2 (1 <<< (s2 - s1 - 1)) kv).1 hin with ⟨-, hno⟩
      exact hno (Or.inl h)
  · intro hne1 hne2
    refine (hmem m s2 (1 <<< (s2 - s1 - 1)) kv).2 ⟨hkv, ?_⟩
    rintro (h | ⟨hlt, -, -, hb⟩)
    · exact hne2 h
    · rw [Nat.one_shiftLeft, Nat.testBit_two_pow, decide_eq_true_iff] at hb
      exact hne1 (by omega)

/-- Concrete envelope used by the ack witnesses. -/
def w4Env : Envelope :=
  ⟨1, "EVENT_BATCH", "nodeA", 5, 0, 0, 0, "alpha", ["reliable"], "p"⟩

/-- Concrete pending packet used by the ack witnesses. -/
def w4Pkt : PendingPacket := ⟨("10.0.0.2", 9999), w4Env, 0, 0⟩

/-- Concrete mesh with pending sequences 3, 5 and 7, used by the ack
witnesses. -/
def w4Mesh : MeshState :=
  { mkMesh "nodeA" "alpha" 1 with
    next_seq := 8, pending := [(3, w4Pkt), (5, w4Pkt), (7, w4Pkt)] }

/-- Witness for c4_apply_ack_characterization: the membership equivalence at a
concrete state, and the paired-removal scenario for s1 = 5, s2 = 7. -/
theorem c4_apply_ack_characterization_witness :
    ((3, w4Pkt) ∈ (w4Mesh.applyAck 7 0).pending ↔
      (3, w4Pkt) ∈ w4Mesh.pending ∧ ¬ ackRemovesSpec 7 0 3) ∧
    (((5, w4Pkt) : Nat × PendingPacket).1 = 5 ∨ ((5, w4Pkt) : Nat × PendingPacket).1 = 7 →
      (5, w4Pkt) ∉ (w4Mesh.applyAck 7 (1 <<< (7 - 5 - 1))).pending) ∧
    ((3, w4Pkt) ∈ (w4Mesh.applyAck 7 (1 <<< (7 - 5 - 1))).pending) :=
  ⟨c4_apply_ack_characterization.1 w4Mesh 7 0 (3, w4Pkt),
   (c4_apply_ack_characterization.2 w4Mesh 5 7 (5, w4Pkt)
     (by decide) (by decide) (by decide)).1,
   (c4_apply_ack_characterization.2 w4Mesh 5 7 (3, w4Pkt)
     (by decide) (by decide) (by decide)).2 (by decide) (by decide)⟩

/-- A make_envelope call site with the keyword names it passes: per the Python
calling convention, the call raises TypeError (modelled as none) when some
keyword is not among make_envelope's declared parameters — make_envelope has
no catch-all keyword parameter — and otherwise returns the envelope built from
the bound arguments. -/
def makeEnvelopeCall (kwargs : List String) (msg_type sender : String)
    (seq ack ack_bits : Nat) (shard payload : String) (reliable ack_only : Bool)
    (ts : Int) : Option Envelope :=
  if callRaisesTypeError makeEnvelopeParams kwargs then none
  else some (make_envelope msg_type sender seq ack ack_bits shard payload reliable ack_only ts)

/-- ReliableMesh.send with the control flow the source actually has
(reliable.py lines 92-111): seq := next_seq and the next_seq increment (lines
93-94) and the _ack_bits read (line 95) execute first; then the make_envelope
call at line 96, which passes the epoch keyword, runs through makeEnvelopeCall
with the transcribed keyword list. When that call raises, send propagates the
exception with the increment already applied: the signing, the transport send
and the reliable pending insert (lines 107-110) are not reached and no
sequence number is returned. The statements of the non-raising branch are
translated as written. -/
def MeshState.sendExec (m : MeshState) (msg_type payload : String)
    (addr : String × Nat) (reliable : Bool) (now : Rat) (ts : Int) :
    MeshState × Option (Envelope × Nat) :=
  let seq := m.next_seq
  let m1 := { m with next_seq := m.next_seq + 1 }
  let ab := m.ackBitsFor m.sender_id
  match makeEnvelopeCall sendCallKeywords msg_type m.sender_id seq ab.1 ab.2
      m.shard payload reliable false ts with
  | none => (m1, none)
  | some env =>
      let pkt : PendingPacket := ⟨addr, env, now, 0⟩
      let m2 :=
        if reliable then { m1 with pending := pendingSet m1.pending seq pkt }
        else m1
      (m2, some (env, seq))

/-- ReliableMesh.broadcast with the control flow the source actually has
(reliable.py lines 113-132): same shape as sendExec — the seq allocation and
next_seq increment (lines 114-115) precede the make_envelope call at line 117
that passes the epoch keyword, and the signing, broadcast transmission and
pending insert (lines 128-131) are only reached when that call returns. -/
def MeshState.broadcastExec (m : MeshState) (msg_type payload : String)
    (port : Nat) (reliable : Bool) (now : Rat) (ts : Int) :
    MeshState × Option (Envelope × Nat) :=
  let seq := m.next_seq
  let m1 := { m with next_seq := m.next_seq + 1 }
  let ab := m.ackBitsFor m.sender_id
  match makeEnvelopeCall sendCallKeywords msg_type m.sender_id seq ab.1 ab.2
      m.shard payload reliable false ts with
  | none => (m1, none)
  | some env =>
      let pkt : PendingPacket := ⟨("255.255.255.255", port), env, now, 0⟩
      let m2 :=
        if reliable then { m1 with pending := pendingSet m1.pending seq pkt }
        else m1
      (m2, some (env, seq))

/-- The recv_loop ACK synthesis with the control flow the source actually has
(reliable.py lines 159-174): the make_envelope call at lines 162-172 — which
passes the epoch keyword — executes BEFORE the next_seq increment at line 173,
so when that call raises, the mesh state is entirely unchanged and no ACK is
sent; only in the non-raising branch is next_seq consumed and incremented. The
payload dict holding the acknowledged sequence is opaque here. -/
def MeshState.ackSynthExec (m : MeshState) (sender : String) (ts : Int) :
    MeshState × Option (Envelope × Nat) :=
  match makeEnvelopeCall ackSynthCallKeywords "ACK" m.sender_id m.next_seq
      (dictGet m.highest_remote_seq sender 0) (dictGet m.recv_window sender 0)
      m.shard "ack-for" false true ts with
  | none => (m, none)
  | some env => ({ m with next_seq := m.next_seq + 1 }, some (env, m.next_seq))

/-- C10: refuted on the source as written; the C1 slip breaks the allocation
discipline the claim describes. From every mesh state: a send or broadcast
does increment next_seq by exactly one, but the TypeError inside make_envelope
then aborts it, so no envelope is signed, no PendingPacket is ever inserted
(the pending map is unchanged whatever the reliable flag) and no sequence
number is returned; and the receive loop's ACK synthesis hits the same
TypeError before its own next_seq increment, so that call does not consume a
sequence number at all — the claimed per-call increment is false of the
program for ACK synthesis, and the pending-insert clause never executes. -/
theorem c10_allocation_broken_by_typeerror :
    (∀ (m : MeshState) (mt p : String) (a : String × Nat) (r : Bool) (now : Rat) (ts : Int),
      (m.sendExec mt p a r now ts).1.next_seq = m.next_seq + 1 ∧
      (m.sendExec mt p a r now ts).1.pending = m.pending ∧
      (m.sendExec mt p a r now ts).2 = none) ∧
    (∀ (m : MeshState) (mt p : String) (port : Nat) (r : Bool) (now : Rat) (ts : Int),
      (m.broadcastExec mt p port r now ts).1.next_seq = m.next_seq + 1 ∧
      (m.broadcastExec mt p port r now ts).1.pending = m.pending ∧
      (m.broadcastExec mt p port r now ts).2 = none) ∧
    (∀ (m : MeshState) (sender : String) (ts : Int),
      (m.ackSynthExec sender ts).1 = m ∧ (m.ackSynthExec sender ts).2 = none) :=
  ⟨fun _ _ _ _ _ _ _ => ⟨rfl, rfl, rfl⟩,
   fun _ _ _ _ _ _ _ => ⟨rfl, rfl, rfl⟩,
   fun _ _ _ => ⟨rfl, rfl⟩⟩

/-- A peer record (membership.py lines 7-16): latency_ms defaults to 0 and the
health score to 100. -/
structure Peer where
  peer_id : String
  host : String
  port : Nat
  shard : String
  nick : String
  last_seen : Rat
  latency_ms : Rat
  score : Rat
deriving DecidableEq, Repr

/-- The membership table (membership.py lines 19-21): the values of the peers
dict, keyed by peer_id, which is unique in every reachable state. -/
structure Membership where
  peers : List Peer
deriving DecidableEq, Repr

/-- Membership.seen (membership.py lines 23-33): creates the record with the
default latency and score when the peer is unknown, otherwise updates host,
port, shard, nick and last_seen in place; now is time.time(). -/
def Membership.seen (m : Membership) (now : Rat) (peer_id host : String) (port : Nat)
    (shard nick : String) : Membership :=
  if m.peers.any (fun p => p.peer_id == peer_id) then
    ⟨m.peers.map (fun p =>
      if p.peer_id == peer_id then
        { p with host := host, port := port, shard := shard, nick := nick, last_seen := now }
      else p)⟩
  else
    ⟨m.peers ++ [⟨peer_id, host, port, shard, nick, now, 0, 100⟩]⟩

/-- Membership.penalize (membership.py lines 35-38): lowers the matching
peer's score by amount, clamped at 0. -/
def Membership.penalize (m : Membership) (peer_id : String) (amount : Rat) : Membership :=
  ⟨m.peers.map (fun p =>
    if p.peer_id == peer_id then { p with score := max 0 (p.score - amount) } else p)⟩

/-- Membership.healthy (membership.py lines 40-42): peers seen within max_age
seconds whose score exceeds 10; now is time.time() at the call. -/
def Membership.healthy (m : Membership) (now max_age : Rat) : List Peer :=
  m.peers.filter (fun p => decide (now - p.last_seen ≤ max_age) && decide ((10 : Rat) < p.score))

/-- Membership.stale (membership.py lines 44-46): peers not seen within
max_age seconds, regardless of score. -/
def Membership.stale (m : Membership) (now max_age : Rat) : List Peer :=
  m.peers.filter (fun p => decide (max_age < now - p.last_seen))

/-- Membership table used to refute C6: one peer just seen, then penalized by
95, leaving it with score 5 — at or below the health floor. -/
def c6M : Membership :=
  (Membership.seen ⟨[]⟩ 0 "p1" "h" 1 "alpha" "n").penalize "p1" 95

/-- Counterexample to C6 as stated: a peer seen within max_age whose score
does not exceed the floor of 10 appears in neither healthy(max_age) nor
stale(max_age) — the two sets do not partition the table, and stale is not
the complement of healthy. -/
theorem c6_low_score_peer_in_neither :
    c6M.peers.length = 1 ∧ c6M.healthy 0 30 = [] ∧ c6M.stale 0 30 = [] := by
  have hseen : Membership.seen ⟨[]⟩ 0 "p1" "h" 1 "alpha" "n"
      = ⟨[⟨"p1", "h", 1, "alpha", "n", 0, 0, 100⟩]⟩ := by
    simp [Membership.seen]
  have hscore : max (0 : Rat) (100 - 95) = 5 := by norm_num
  have hm : c6M = ⟨[⟨"p1", "h", 1, "alpha", "n", 0, 0, 5⟩]⟩ := by
    rw [c6M, hseen]
    simp [Membership.penalize, hscore]
  rw [hm]
  refine ⟨rfl, ?_, ?_⟩
  · simp [Membership.healthy]
    norm_num
  · simp [Membership.stale]

/-- Peers with the same id in a table just refreshed by seen all carry
last_seen = now. -/
lemma seen_pid_last_seen (m : Membership) (now : Rat) (pid host : String) (port : Nat)
    (shard nick : String) :
    ∀ q ∈ (m.seen now pid host port shard nick).peers, q.peer_id = pid → q.last_seen = now := by
  intro q hq hqid
  unfold Membership.seen at hq
  split at hq
  · rcases List.mem_map.1 hq with ⟨p0, hp0, heq⟩
    by_cases hk : p0.peer_id = pid
    · rw [if_pos (by simpa using hk)] at heq
      rw [← heq]
    · rw [if_neg (by simpa using hk)] at heq
      exact absurd (heq ▸ hqid) hk
  · rename_i hnone
    rcases List.mem_append.1 hq with h1 | h1
    · rw [List.any_eq_true] at hnone
      exact absurd ⟨q, h1, by simpa using hqid⟩ hnone
    · simp at h1
      rw [h1]

/-- C6, amended: at one instant, healthy membership is freshness together with
a score above 10, stale membership is exactly non-freshness, so a peer lies in
exactly one of the two iff it is either stale-by-age or has score above 10 —
equivalently, a fresh peer is in neither set iff its score is at most 10 —
and a peer just refreshed by seen is healthy iff its score exceeds 10
(for any nonnegative max_age). -/
theorem c6_healthy_stale_partition_amended (m : Membership) (now max_age : Rat)
    (pid host : String) (port : Nat) (shard nick : String) (p : Peer) (hp : p ∈ m.peers) :
    (p ∈ m.healthy now max_age ↔ now - p.last_seen ≤ max_age ∧ 10 < p.score) ∧
    (p ∈ m.stale now max_age ↔ max_age < now - p.last_seen) ∧
    (((p ∈ m.healthy now max_age ∧ p ∉ m.stale now max_age) ∨
      (p ∉ m.healthy now max_age ∧ p ∈ m.stale now max_age)) ↔
      (now - p.last_seen ≤ max_age → 10 < p.score)) ∧
    (0 ≤ max_age → ∀ q ∈ (m.seen now pid host port shard nick).peers, q.peer_id = pid →
      (q ∈ (m.seen now pid host port shard nick).healthy now max_age ↔ 10 < q.score)) := by
  have hh : p ∈ m.healthy now max_age ↔ now - p.last_seen ≤ max_age ∧ 10 < p.score := by
    unfold Membership.healthy
    rw [List.mem_filter]
    simp [hp]
  have hs : p ∈ m.stale now max_age ↔ max_age < now - p.last_seen := by
    unfold Membership.stale
    rw [List.mem_filter]
    simp [hp]
  refine ⟨hh, hs, ?_, ?_⟩
  · by_cases hage : now - p.last_seen ≤ max_age
    · have hns : p ∉ m.stale now max_age := by
        rw [hs]
        exact not_lt.2 hage
      constructor
      · rintro (⟨h1, -⟩ | ⟨-, h2⟩)
        · exact fun _ => (hh.1 h1).2
        · exact absurd h2 hns
      · intro himp
        exact Or.inl ⟨hh.2 ⟨hage, himp hage⟩, hns⟩
    · have hstale : p ∈ m.stale now max_age := hs.2 (not_le.1 hage)
      have hnh : p ∉ m.healthy now max_age := fun hmem => hage (hh.1 hmem).1
      constructor
      · exact fun _ hc => absurd hc hage
      · exact fun _ => Or.inr ⟨hnh, hstale⟩
  · intro hage q hq hqid
    have hlast := seen_pid_last_seen m now pid host port shard nick q hq hqid
    unfold Membership.healthy
    rw [List.mem_filter]
    simp only [hq, true_and, Bool.and_eq_true, decide_eq_true_eq, hlast, sub_self]
    exact ⟨fun h => h.2, fun h => ⟨hage, h⟩⟩

/-- Concrete membership table used by the membership witnesses: one known
peer with a fresh sighting and full score. -/
def w6Peer : Peer := ⟨"p1", "h", 1, "alpha", "n", 0, 0, 100⟩

/-- One-peer membership table for the membership witnesses. -/
def w6M : Membership := ⟨[w6Peer]⟩

/-- Witness for c6_healthy_stale_partition_amended at the concrete one-peer
table, instant 0 and max_age 30. -/
theorem c6_healthy_stale_partition_amended_witness :
    (w6Peer ∈ w6M.healthy 0 30 ↔ 0 - w6Peer.last_seen ≤ 30 ∧ 10 < w6Peer.score) ∧
    (w6Peer ∈ w6M.stale 0 30 ↔ 30 < 0 - w6Peer.last_seen) ∧
    (((w6Peer ∈ w6M.healthy 0 30 ∧ w6Peer ∉ w6M.stale 0 30) ∨
      (w6Peer ∉ w6M.healthy 0 30 ∧ w6Peer ∈ w6M.stale 0 30)) ↔
      (0 - w6Peer.last_seen ≤ 30 → 10 < w6Peer.score)) ∧
    (0 ≤ (30 : Rat) → ∀ q ∈ (w6M.seen 0 "p2" "h2" 2 "alpha" "n2").peers, q.peer_id = "p2" →
      (q ∈ (w6M.seen 0 "p2" "h2" 2 "alpha" "n2").healthy 0 30 ↔ 10 < q.score)) :=
  c6_healthy_stale_partition_amended w6M 0 30 "p2" "h2" 2 "alpha" "n2" w6Peer (by decide)

/-- C9: confirmed. seen on an already-known peer rewrites only host, port,
shard, nick and last_seen — the health score and latency estimate persist —
and penalize with a nonnegative amount is the only score mutation, never
raising any score (given the reachable-state invariant that scores are
nonnegative); every other field is untouched by penalize. -/
theorem c9_seen_preserves_score (m : Membership) (now : Rat) (pid host : String)
    (port : Nat) (shard nick : String) (p : Peer) (hp : p ∈ m.peers) (hpid : p.peer_id = pid)
    (amount : Rat) (hamt : 0 ≤ amount) (hscores : ∀ q ∈ m.peers, 0 ≤ q.score) :
    (∃ q ∈ (m.seen now pid host port shard nick).peers,
      q.peer_id = p.peer_id ∧ q.score = p.score ∧ q.latency_ms = p.latency_ms ∧
      q.host = host ∧ q.port = port ∧ q.shard = shard ∧ q.nick = nick ∧
      q.last_seen = now) ∧
    (∀ q ∈ (m.penalize pid amount).peers, ∃ q0 ∈ m.peers,
      q0.peer_id = q.peer_id ∧ q.score ≤ q0.score ∧ (q0.peer_id ≠ pid → q = q0) ∧
      q.host = q0.host ∧ q.port = q0.port ∧ q.shard = q0.shard ∧ q.nick = q0.nick ∧
      q.last_seen = q0.last_seen ∧ q.latency_ms = q0.latency_ms) := by
  constructor
  · have hany : (m.peers.any (fun q => q.peer_id == pid)) = true := by
      rw [List.any_eq_true]
      exact ⟨p, hp, by simpa using hpid⟩
    unfold Membership.seen
    rw [if_pos hany]
    refine ⟨⟨p.peer_id, host, port, shard, nick, now, p.latency_ms, p.score⟩, ?_, ?_⟩
    · refine List.mem_map.2 ⟨p, hp, ?_⟩
      simp [hpid]
    · exact ⟨rfl, rfl, rfl, rfl, rfl, rfl, rfl, rfl⟩
  · intro q hq
    unfold Membership.penalize at hq
    rcases List.mem_map.1 hq with ⟨q0, hq0, heq⟩
    by_cases hk : q0.peer_id = pid
    · rw [if_pos (by simpa using hk)] at heq
      refine ⟨q0, hq0, ?_⟩
      rw [← heq]
      refine ⟨rfl, ?_, fun hcon => absurd hk hcon, rfl, rfl, rfl, rfl, rfl, rfl⟩
      exact max_le (hscores q0 hq0) (sub_le_self q0.score hamt)
    · rw [if_neg (by simpa using hk)] at heq
      subst heq
      exact ⟨q0, hq0, rfl, le_refl q0.score, fun _ => rfl, rfl, rfl, rfl, rfl, rfl, rfl⟩

/-- Witness for c9_seen_preserves_score at the concrete one-peer table. -/
theorem c9_seen_preserves_score_witness :
    (∃ q ∈ (w6M.seen 5 "p1" "h9" 9 "beta" "n9").peers,
      q.peer_id = w6Peer.peer_id ∧ q.score = w6Peer.score ∧
      q.latency_ms = w6Peer.latency_ms ∧ q.host = "h9" ∧ q.port = 9 ∧
      q.shard = "beta" ∧ q.nick = "n9" ∧ q.last_seen = 5) ∧
    (∀ q ∈ (w6M.penalize "p1" 3).peers, ∃ q0 ∈ w6M.peers,
      q0.peer_id = q.peer_id ∧ q.score ≤ q0.score ∧ (q0.peer_id ≠ "p1" → q = q0) ∧
      q.host = q0.host ∧ q.port = q0.port ∧ q.shard = q0.shard ∧ q.nick = q0.nick ∧
      q.last_seen = q0.last_seen ∧ q.latency_ms = q0.latency_ms) :=
  c9_seen_preserves_score w6M 5 "p1" "h9" 9 "beta" "n9" w6Peer (by decide) (by decide)
    3 (by decide) (by decide)

/-- A row of the players table (store_sqlite.py schema lines 45-65), restricted
to the columns the verified paths read or write: shield, position, velocity,
motion_ts and ap are never touched by ensure_player's conflict branch, by
update_player_resources' credit/resource arithmetic, or by the snapshot merge,
and are omitted. -/
structure PlayerRow where
  player_id : String
  nick : String
  doctrine : String
  credits : Int
  ore : Int
  gas : Int
  crystal : Int
  hp : Int
  sector : Int
  alliance_id : Option String
  updated_ts : Rat
  ap_updated_ts : Rat
deriving DecidableEq, Repr

/-- A row of the event_log table (store_sqlite.py schema lines 95-102):
AUTOINCREMENT id and UNIQUE event_id. -/
structure EventRow where
  id : Nat
  ts : Rat
  sender : String
  event_type : String
  payload : String
  event_id : String
deriving DecidableEq, Repr

/-- The replicated store (store_sqlite.py), restricted to the tables the
verified paths touch: players, tech_tree rows (player_id, domain, level) and
the event log with its AUTOINCREMENT counter (which starts at 1). -/
structure StoreState where
  players : List PlayerRow
  tech : List (String × String × Int)
  event_log : List EventRow
  next_event_rowid : Nat
deriving DecidableEq, Repr

/-- Tech domains initialized by Store.ensure_player (store_sqlite.py line 237). -/
def techDomains : List String := ["ship_hull", "weapons", "shields", "mining", "defense_grid"]

/-- INSERT OR IGNORE INTO tech_tree(player_id, domain, level) VALUES(pid, d, 0)
(store_sqlite.py lines 238-241); (player_id, domain) is the primary key. -/
def techInsertIgnore (tech : List (String × String × Int)) (pid d : String) :
    List (String × String × Int) :=
  if tech.any (fun r => r.1 == pid && r.2.1 == d) then tech else tech ++ [(pid, d, 0)]

/-- Store.ensure_player (store_sqlite.py lines 222-242): INSERT with defaults
credits 1000, resources 100, hp 100, sector 1, no alliance; ON
CONFLICT(player_id) the update overwrites only nick and updated_ts. Then
ap_updated_ts is set to now where it is still 0, and the five tech rows are
inserted if absent; now is time.time(). -/
def ensurePlayer (s : StoreState) (now : Rat) (pid nick doctrine : String) : StoreState :=
  let players :=
    if s.players.any (fun p => p.player_id == pid) then
      s.players.map (fun p =>
        if p.player_id == pid then { p with nick := nick, updated_ts := now } else p)
    else
      s.players ++ [⟨pid, nick, doctrine, 1000, 100, 100, 100, 100, 1, none, now, 0⟩]
  let players := players.map (fun p =>
    if p.player_id == pid && decide (p.ap_updated_ts = 0) then { p with ap_updated_ts := now }
    else p)
  { s with players := players,
           tech := techDomains.foldl (fun t d => techInsertIgnore t pid d) s.tech }

/-- Store.update_player_resources (store_sqlite.py lines 760-778): the credit
and resource arguments are added to the stored values; hp, when given, is
overwritten; now is time.time(). -/
def updatePlayerResources (s : StoreState) (now : Rat) (pid : String)
    (credits ore gas crystal : Int) (hp : Option Int) : StoreState :=
  { s with players := s.players.map (fun p =>
      if p.player_id == pid then
        { p with credits := p.credits + credits, ore := p.ore + ore, gas := p.gas + gas,
                 crystal := p.crystal + crystal,
                 hp := match hp with
                   | some h => h
                   | none => p.hp,
                 updated_ts := now }
      else p) }

/-- Store.record_event (store_sqlite.py lines 791-801). event_id is UNIQUE, so
the INSERT OR IGNORE inserts only when no row with this event_id exists, and
then the cursor's lastrowid is the fresh AUTOINCREMENT id; when the insert is
ignored the fresh cursor has no lastrowid and the function falls back to
selecting the id of the existing row, so it returns 0 only when no row with
this event_id exists at all. The model covers calls with a concrete event_id
string (the callers in main.py always pass one). -/
def recordEvent (s : StoreState) (now : Rat) (sender event_type payload eid : String) :
    StoreState × Nat :=
  match s.event_log.find? (fun r => r.event_id == eid) with
  | some r => (s, r.id)
  | none =>
      let rid := s.next_event_rowid
      ({ s with
          event_log := s.event_log ++ [⟨rid, now, sender, event_type, payload, eid⟩],
          next_event_rowid := rid + 1 }, rid)

/-- A gossip event as read by GameNode._apply_remote_event (main.py lines
188-192 for the top-level fields, lines 244-258 for the payload fields of the
market_trade branch, which is the branch the model covers; the other branches
read other payload fields the same way). -/
structure RemoteEvent where
  event_type : String
  sender : String
  event_id : String
  hops : Nat
  player_id : String
  nick : String
  resource : String
  qty : Int
  side : String
  credits_delta : Int
deriving DecidableEq, Repr

/-- Node state touched by _apply_remote_event: the store plus the flat list of
events handed to _fanout_events for re-forwarding (main.py lines 270-275). -/
structure NodeState where
  store : StoreState
  forwarded : List RemoteEvent
deriving DecidableEq, Repr

/-- Default max_event_hops from policy.py _default_policy_dict (line 27). -/
def defaultMaxEventHops : Nat := 2

/-- GameNode._apply_remote_event (main.py lines 187-275) for a market_trade
event: records the event and returns early only when record_event returned 0;
otherwise ensures the player exists (nick defaulted upstream), applies the
signed resource and credit deltas, and — when hops < Policy.max_event_hops —
hands the event with hops + 1 to _fanout_events. -/
def applyRemoteEvent (n : NodeState) (now : Rat) (maxHops : Nat) (ev : RemoteEvent) :
    NodeState :=
  let r := recordEvent n.store now ev.sender ev.event_type "payload" ev.event_id
  if r.2 == 0 then { n with store := r.1 }
  else
    let st :=
      if ev.event_type == "market_trade" && !(ev.player_id == "") then
        let st1 := ensurePlayer r.1 now ev.player_id ev.nick "assault"
        let sgn : Int := if ev.side == "buy" then 1 else -1
        let ore := if ev.resource == "ore" then sgn * ev.qty else 0
        let gas := if ev.resource == "gas" then sgn * ev.qty else 0
        let crystal := if ev.resource == "crystal" then sgn * ev.qty else 0
        updatePlayerResources st1 now ev.player_id ev.credits_delta ore gas crystal none
      else r.1
    let fwd := if ev.hops < maxHops then [{ ev with hops := ev.hops + 1 }] else []
    ⟨st, n.forwarded ++ fwd⟩

/-- Credits recorded for a player, for reading off the effect of a replayed
event. -/
def creditsOf (n : NodeState) (pid : String) : Option Int :=
  (n.store.players.find? (fun p => p.player_id == pid)).map (fun p => p.credits)

/-- The market_trade event used to refute C2. -/
def c2Event : RemoteEvent :=
  ⟨"market_trade", "peerA", "e1", 0, "pl1", "n1", "ore", 3, "buy", 10⟩

/-- Empty node state used to refute C2. -/
def c2Node0 : NodeState := ⟨⟨[], [], [], 1⟩, []⟩

/-- C2: refuted as stated; the code is the slip. After the first delivery the
event's identifier e1 is recorded in the event log, yet the second delivery of
the very same event is re-applied — credits move from 1010 to 1020 — and is
re-forwarded a second time: record_event returns the existing row's id
(nonzero) for an already-recorded event_id, so the row_id == 0 dedup guard in
_apply_remote_event never fires. -/
theorem c2_duplicate_event_reapplied :
    ((applyRemoteEvent c2Node0 0 defaultMaxEventHops c2Event).store.event_log.map
        (fun r => r.event_id)) = ["e1"] ∧
    creditsOf (applyRemoteEvent c2Node0 0 defaultMaxEventHops c2Event) "pl1" = some 1010 ∧
    creditsOf (applyRemoteEvent (applyRemoteEvent c2Node0 0 defaultMaxEventHops c2Event) 0
        defaultMaxEventHops c2Event) "pl1" = some 1020 ∧
    (applyRemoteEvent (applyRemoteEvent c2Node0 0 defaultMaxEventHops c2Event) 0
        defaultMaxEventHops c2Event).forwarded.length = 2 := by
  refine ⟨by decide, by decide, by decide, by decide⟩

/-- SNAPSHOT_RES handler of GameNode.on_net_message (main.py lines 365-372):
for every entry of the snapshot's player list, read player_id and nick
(defaulted upstream) and call Store.ensure_player when player_id is nonempty. -/
def onSnapshotRes (s : StoreState) (now : Rat) (plist : List (String × String)) :
    StoreState :=
  plist.foldl (fun acc pr =>
    if pr.1 == "" then acc else ensurePlayer acc now pr.1 pr.2 "assault") s

/-- Fields of a stored player row that the conservative snapshot merge leaves
unchanged: everything except nick and the bookkeeping timestamps. -/
def playerFrameEq (q p : PlayerRow) : Prop :=
  q.player_id = p.player_id ∧ q.doctrine = p.doctrine ∧ q.credits = p.credits ∧
  q.ore = p.ore ∧ q.gas = p.gas ∧ q.crystal = p.crystal ∧ q.hp = p.hp ∧
  q.sector = p.sector ∧ q.alliance_id = p.alliance_id

/-- playerFrameEq is reflexive. -/
lemma playerFrameEq_refl (p : PlayerRow) : playerFrameEq p p :=
  ⟨rfl, rfl, rfl, rfl, rfl, rfl, rfl, rfl, rfl⟩

/-- playerFrameEq composes. -/
lemma playerFrameEq_trans {q r p : PlayerRow} (h1 : playerFrameEq q r)
    (h2 : playerFrameEq r p) : playerFrameEq q p := by
  obtain ⟨a1, a2, a3, a4, a5, a6, a7, a8, a9⟩ := h1
  obtain ⟨b1, b2, b3, b4, b5, b6, b7, b8, b9⟩ := h2
  exact ⟨a1.trans b1, a2.trans b2, a3.trans b3, a4.trans b4, a5.trans b5,
    a6.trans b6, a7.trans b7, a8.trans b8, a9.trans b9⟩

/-- ensure_player keeps every authoritative field of every stored row: the
conflict branch rewrites only nick and updated_ts, and the ap initialization
rewrites only ap_updated_ts. -/
lemma ensurePlayer_frame (s : StoreState) (now : Rat) (pid nick doctrine : String) :
    ∀ p ∈ s.players, ∃ q ∈ (ensurePlayer s now pid nick doctrine).players,
      playerFrameEq q p := by
  intro p hp
  simp only [ensurePlayer]
  by_cases h1 : (s.players.any (fun q => q.player_id == pid)) = true
  · rw [if_pos h1]
    by_cases hk : p.player_id = pid
    · by_cases hap : p.ap_updated_ts = 0
      · refine ⟨⟨p.player_id, nick, p.doctrine, p.credits, p.ore, p.gas, p.crystal,
          p.hp, p.sector, p.alliance_id, now, now⟩, ?_, ?_⟩
        · refine List.mem_map.2 ⟨⟨p.player_id, nick, p.doctrine, p.credits, p.ore,
            p.gas, p.crystal, p.hp, p.sector, p.alliance_id, now, p.ap_updated_ts⟩,
            List.mem_map.2 ⟨p, hp, by simp [hk]⟩, by simp [hk, hap]⟩
        · exact ⟨rfl, rfl, rfl, rfl, rfl, rfl, rfl, rfl, rfl⟩
      · refine ⟨⟨p.player_id, nick, p.doctrine, p.credits, p.ore, p.gas, p.crystal,
          p.hp, p.sector, p.alliance_id, now, p.ap_updated_ts⟩, ?_, ?_⟩
        · refine List.mem_map.2 ⟨⟨p.player_id, nick, p.doctrine, p.credits, p.ore,
            p.gas, p.crystal, p.hp, p.sector, p.alliance_id, now, p.ap_updated_ts⟩,
            List.mem_map.2 ⟨p, hp, by simp [hk]⟩, by simp [hk, hap]⟩
        · exact ⟨rfl, rfl, rfl, rfl, rfl, rfl, rfl, rfl, rfl⟩
    · refine ⟨p, ?_, playerFrameEq_refl p⟩
      exact List.mem_map.2 ⟨p, List.mem_map.2 ⟨p, hp, by simp [hk]⟩, by simp [hk]⟩
  · rw [if_neg h1]
    have hknot : ¬ p.player_id = pid := by
      intro hk
      rw [List.any_eq_true] at h1
      exact h1 ⟨p, hp, by simpa using hk⟩
    refine ⟨p, ?_, playerFrameEq_refl p⟩
    refine List.mem_map.2 ⟨p, List.mem_append_left _ hp, by simp [hknot]⟩

/-- ensure_player leaves a row whose player_id is the ensured id. -/
lemma ensurePlayer_creates (s : StoreState) (now : Rat) (pid nick doctrine : String) :
    ∃ q ∈ (ensurePlayer s now pid nick doctrine).players, q.player_id = pid := by
  simp only [ensurePlayer]
  by_cases h1 : (s.players.any (fun q => q.player_id == pid)) = true
  · rw [if_pos h1]
    rw [List.any_eq_true] at h1
    obtain ⟨p, hp, hpk⟩ := h1
    have hk : p.player_id = pid := by simpa using hpk
    by_cases hap : p.ap_updated_ts = 0
    · refine ⟨⟨p.player_id, nick, p.doctrine, p.credits, p.ore, p.gas, p.crystal,
        p.hp, p.sector, p.alliance_id, now, now⟩, ?_, hk⟩
      refine List.mem_map.2 ⟨⟨p.player_id, nick, p.doctrine, p.credits, p.ore,
        p.gas, p.crystal, p.hp, p.sector, p.alliance_id, now, p.ap_updated_ts⟩,
        List.mem_map.2 ⟨p, hp, by simp [hk]⟩, by simp [hk, hap]⟩
    · refine ⟨⟨p.player_id, nick, p.doctrine, p.credits, p.ore, p.gas, p.crystal,
        p.hp, p.sector, p.alliance_id, now, p.ap_updated_ts⟩, ?_, hk⟩
      refine List.mem_map.2 ⟨⟨p.player_id, nick, p.doctrine, p.credits, p.ore,
        p.gas, p.crystal, p.hp, p.sector, p.alliance_id, now, p.ap_updated_ts⟩,
        List.mem_map.2 ⟨p, hp, by simp [hk]⟩, by simp [hk, hap]⟩
  · rw [if_neg h1]
    refine ⟨⟨pid, nick, doctrine, 1000, 100, 100, 100, 100, 1, none, now, now⟩, ?_, rfl⟩
    refine List.mem_map.2 ⟨⟨pid, nick, doctrine, 1000, 100, 100, 100, 100, 1, none, now, 0⟩,
      List.mem_append_right _ (by simp), by simp⟩

/-- INSERT OR IGNORE into tech_tree never removes rows. -/
lemma techInsertIgnore_superset (t : List (String × String × Int)) (pid d : String) :
    ∀ r ∈ t, r ∈ techInsertIgnore t pid d := by
  intro r hr
  unfold techInsertIgnore
  split
  · exact hr
  · exact List.mem_append_left _ hr

/-- Folding tech insertions never removes rows. -/
lemma techFold_superset (ds : List String) (pid : String) :
    ∀ (t : List (String × String × Int)) (r : String × String × Int), r ∈ t →
      r ∈ ds.foldl (fun acc d => techInsertIgnore acc pid d) t := by
  induction ds with
  | nil => intro t r hr; simpa using hr
  | cons d rest ih =>
      intro t r hr
      exact ih (techInsertIgnore t pid d) r (techInsertIgnore_superset t pid d r hr)

/-- ensure_player never removes or changes existing tech rows' membership. -/
lemma ensurePlayer_tech (s : StoreState) (now : Rat) (pid nick doctrine : String) :
    ∀ r ∈ s.tech, r ∈ (ensurePlayer s now pid nick doctrine).tech := by
  intro r hr
  simp only [ensurePlayer]
  exact techFold_superset techDomains pid s.tech r hr

/-- Snapshot merge invariants, by induction over the snapshot list: existing
rows keep their authoritative fields, tech rows persist, and every nonempty
player id of the snapshot ends up present. -/
lemma onSnapshotRes_props (now : Rat) :
    ∀ (plist : List (String × String)) (s : StoreState),
      (∀ p ∈ s.players, ∃ q ∈ (onSnapshotRes s now plist).players, playerFrameEq q p) ∧
      (∀ r ∈ s.tech, r ∈ (onSnapshotRes s now plist).tech) ∧
      (∀ pr ∈ plist, pr.1 ≠ "" →
        ∃ q ∈ (onSnapshotRes s now plist).players, q.player_id = pr.1) := by
  intro plist
  induction plist with
  | nil =>
      intro s
      refine ⟨fun p hp => ⟨p, hp, playerFrameEq_refl p⟩, fun r hr => hr, ?_⟩
      intro pr hpr
      exact absurd hpr (List.not_mem_nil pr)
  | cons pr rest ih =>
      intro s
      have hstep : onSnapshotRes s now (pr :: rest)
          = onSnapshotRes (if pr.1 == "" then s else ensurePlayer s now pr.1 pr.2 "assault")
              now rest := by
        simp [onSnapshotRes, List.foldl_cons]
      by_cases he : pr.1 = ""
      · rw [hstep, if_pos (by simpa using he)]
        rcases ih s with ⟨ihf, iht, ihc⟩
        refine ⟨ihf, iht, ?_⟩
        intro pr' hpr' hne
        rcases List.mem_cons.1 hpr' with rfl | hmem
        · exact absurd he hne
        · exact ihc pr' hmem hne
      · rw [hstep, if_neg (by simpa using he)]
        rcases ih (ensurePlayer s now pr.1 pr.2 "assault") with ⟨ihf, iht, ihc⟩
        refine ⟨?_, ?_, ?_⟩
        · intro p hp
          rcases ensurePlayer_frame s now pr.1 pr.2 "assault" p hp with ⟨q1, hq1, hfr1⟩
          rcases ihf q1 hq1 with ⟨q2, hq2, hfr2⟩
          exact ⟨q2, hq2, playerFrameEq_trans hfr2 hfr1⟩
        · intro r hr
          exact iht r (ensurePlayer_tech s now pr.1 pr.2 "assault" r hr)
        · intro pr' hpr' hne
          rcases List.mem_cons.1 hpr' with rfl | hmem
          · rcases ensurePlayer_creates s now pr'.1 pr'.2 "assault" with ⟨q1, hq1, hid⟩
            rcases ihf q1 hq1 with ⟨q2, hq2, hfr2⟩
            exact ⟨q2, hq2, hfr2.1.trans hid⟩
          · exact ihc pr' hmem hne

/-- Player row used by the snapshot-merge refutation and witness. -/
def c8Player : PlayerRow := ⟨"p1", "old", "siege", 777, 1, 2, 3, 50, 4, none, 0, 1⟩

/-- Store with one known player used by the snapshot-merge refutation and
witness. -/
def c8Store : StoreState := ⟨[c8Player], [("p1", "weapons", 2)], [], 1⟩

/-- Counterexample to C8 as stated: merging a SNAPSHOT_RES entry for a player
the receiver already stores overwrites that player's nick — ensure_player's
conflict branch sets nick to the incoming value — so the merge does not leave
every field of an existing record unchanged. -/
theorem c8_snapshot_overwrites_nick :
    ((onSnapshotRes c8Store 0 [("p1", "new")]).players.map (fun p => p.nick)) = ["new"] ∧
    c8Player.nick = "old" := by
  refine ⟨by decide, by decide⟩

/-- C8, amended: processing a SNAPSHOT_RES creates a row for every nonempty
player_id of the snapshot the receiver had no record of, and for every record
the receiver already has it leaves player_id, doctrine, credits, ore, gas,
crystal, hp, sector, alliance and the tech rows unchanged; of the stored
fields only nick (and the bookkeeping timestamps) can be overwritten by the
merge. -/
theorem c8_snapshot_merge_amended (s : StoreState) (now : Rat)
    (plist : List (String × String)) :
    (∀ p ∈ s.players, ∃ q ∈ (onSnapshotRes s now plist).players, playerFrameEq q p) ∧
    (∀ r ∈ s.tech, r ∈ (onSnapshotRes s now plist).tech) ∧
    (∀ pr ∈ plist, pr.1 ≠ "" →
      ∃ q ∈ (onSnapshotRes s now plist).players, q.player_id = pr.1) :=
  onSnapshotRes_props now plist s

/-- Witness for c8_snapshot_merge_amended: the frame part at the stored player
and the creation part at a fresh id. -/
theorem c8_snapshot_merge_amended_witness :
    (∃ q ∈ (onSnapshotRes c8Store 0 [("p2", "n2")]).players, playerFrameEq q c8Player) ∧
    (("p1", "weapons", (2 : Int)) ∈ (onSnapshotRes c8Store 0 [("p2", "n2")]).tech) ∧
    (∃ q ∈ (onSnapshotRes c8Store 0 [("p2", "n2")]).players, q.player_id = "p2") :=
  ⟨(c8_snapshot_merge_amended c8Store 0 [("p2", "n2")]).1 c8Player (by decide),
   (c8_snapshot_merge_amended c8Store 0 [("p2", "n2")]).2.1 ("p1", "weapons", 2) (by decide),
   (c8_snapshot_merge_amended c8Store 0 [("p2", "n2")]).2.2 ("p2", "n2") (by decide) (by decide)⟩

/-- One evaluation of ReliableMesh._rate_allowed for one source address
(reliable.py lines 45-52): the bucket is pruned to the arrival times of the
last second; when more than 120 remain the datagram is rejected, otherwise the
arrival time is appended and the datagram admitted. -/
def rateStep (bucket : List Rat) (now : Rat) : Bool × List Rat :=
  let b := bucket.filter (fun t => decide (now - t < 1))
  if 120 < b.length then (false, b) else (true, b ++ [now])

/-- Successive _rate_allowed evaluations for one source address over a list of
arrival times: the final bucket and the admitted arrival times in order. -/
def rateRun (bucket : List Rat) : List Rat → List Rat × List Rat
  | [] => (bucket, [])
  | t :: rest =>
      let r := rateStep bucket t
      let tail := rateRun r.2 rest
      (tail.1, (if r.1 then [t] else []) ++ tail.2)

/-- Membership of an arrival time in the one-second window starting just
after w. -/
def inWindow (w t : Rat) : Bool := decide (w < t) && decide (t ≤ w + 1)

/-- Bucket stored for an address in the per-address rate_counter dict
(reliable.py lines 43 and 47); setdefault yields the empty bucket for an
address not seen before. -/
def rcGet (rc : List ((String × Nat) × List Rat)) (addr : String × Nat) : List Rat :=
  match rc.find? (fun kv => kv.1 == addr) with
  | some kv => kv.2
  | none => []

/-- Write the updated bucket back under its address. -/
def rcSet (rc : List ((String × Nat) × List Rat)) (addr : String × Nat)
    (bucket : List Rat) : List ((String × Nat) × List Rat) :=
  if rc.any (fun kv => kv.1 == addr) then
    rc.map (fun kv => if kv.1 == addr then (kv.1, bucket) else kv)
  else rc ++ [(addr, bucket)]

/-- ReliableMesh._rate_allowed (reliable.py lines 45-52) with the per-address
dict bookkeeping of the rate_counter attribute. -/
def rateAllowed (rc : List ((String × Nat) × List Rat)) (addr : String × Nat)
    (now : Rat) : Bool × List ((String × Nat) × List Rat) :=
  let r := rateStep (rcGet rc addr) now
  (r.1, rcSet rc addr r.2)

/-- A burst of identical arrival times keeps passing the window filter. -/
lemma rateStep_same (k : Nat) (c : Rat) (hk : k ≤ 120) :
    rateStep (List.replicate k c) c = (true, List.replicate (k + 1) c) := by
  unfold rateStep
  have hf : (List.replicate k c).filter (fun t => decide (c - t < 1))
      = List.replicate k c := by
    apply List.filter_eq_self.2
    intro u hu
    have hu' : u = c := List.eq_of_mem_replicate hu
    subst hu'
    simp only [decide_eq_true_eq, sub_self]
    norm_num
  rw [hf, if_neg (by simp [List.length_replicate]; omega)]
  simp [List.replicate_succ']

/-- A same-instant burst of at most 121 - k datagrams on a bucket of k
identical times is admitted in full. -/
lemma rateRun_replicate :
    ∀ (n k : Nat) (c : Rat), n + k ≤ 121 →
      (rateRun (List.replicate k c) (List.replicate n c)).2 = List.replicate n c := by
  intro n
  induction n with
  | zero => intro k c _; simp [rateRun]
  | succ n ih =>
      intro k c h
      rw [List.replicate_succ]
      simp only [rateRun, rateStep_same k c (by omega)]
      rw [ih (k + 1) c (by omega)]
      simp [List.replicate_succ]

/-- Counterexample to C7 as stated: 121 datagrams arriving from one address at
the same instant are all admitted — the source checks the pruned bucket with a
strict > 120 before appending, so the cap inside a one-second window is 121,
not the claimed 120 (the value of Policy's packets_per_sec, which
_rate_allowed does not even consult). -/
theorem c7_admits_121_in_one_window :
    ((rateRun [] (List.replicate 121 (0 : Rat))).2).length = 121 ∧ 120 < 121 := by
  have h := rateRun_replicate 121 0 0 (by omega)
  simp only [List.replicate_zero] at h
  rw [h, List.length_replicate]
  omega

/-- Admitted arrival times all come from the processed trace. -/
lemma rateRun_subset :
    ∀ (times bucket : List Rat) (u : Rat), u ∈ (rateRun bucket times).2 → u ∈ times := by
  intro times
  induction times with
  | nil =>
      intro bucket u h
      simp [rateRun] at h
  | cons t rest ih =>
      intro bucket u h
      simp only [rateRun] at h
      rcases List.mem_append.1 h with h1 | h1
      · by_cases hr : (rateStep bucket t).1 = true
        · simp [hr] at h1
          simp [h1]
        · simp [Bool.not_eq_true] at hr
          simp [hr] at h1
      · exact List.mem_cons_of_mem t (ih _ u h1)

/-- Unfolding a rate decision step inside a trace. -/
lemma rateRun_cons (bucket : List Rat) (t : Rat) (rest : List Rat) :
    (rateRun bucket (t :: rest)).2
      = (if (rateStep bucket t).1 then [t] else [])
          ++ (rateRun (rateStep bucket t).2 rest).2 := rfl

/-- Pruning at an arrival time inside or before the window keeps exactly the
in-window part of the bucket. -/
lemma filter_window_of_le (bucket : List Rat) (w t : Rat) (ht : t ≤ w + 1) :
    ((bucket.filter (fun u => decide (t - u < 1))).filter (fun u => inWindow w u))
      = bucket.filter (fun u => inWindow w u) := by
  rw [List.filter_filter]
  apply List.filter_congr
  intro u _
  by_cases hw : inWindow w u = true
  · have hwu : w < u := by
      unfold inWindow at hw
      rw [Bool.and_eq_true] at hw
      exact of_decide_eq_true hw.1
    have hlt : t - u < 1 := by linarith
    simp [hw, hlt]
  · simp only [Bool.not_eq_true] at hw
    simp [hw]

/-- Core window bound: along a chronologically ordered trace, starting from a
bucket with at most 121 in-window entries, the in-window bucket entries plus
the in-window admissions stay at 121 or fewer — unless no arrival of the trace
falls into the window at all. -/
lemma rateRun_window (w : Rat) :
    ∀ (times : List Rat), List.Pairwise (fun a b => a ≤ b) times →
      ∀ bucket : List Rat,
        (bucket.filter (fun u => inWindow w u)).length ≤ 121 →
        ((bucket.filter (fun u => inWindow w u)).length
            + (((rateRun bucket times).2).filter (fun u => inWindow w u)).length ≤ 121
          ∨ ∀ t ∈ times, inWindow w t = false) := by
  intro times
  induction times with
  | nil =>
      intro _ bucket _
      exact Or.inr (by simp)
  | cons t rest ih =>
      intro hpw bucket hpre
      rcases List.pairwise_cons.1 hpw with ⟨hhead, htail⟩
      by_cases ht1 : t ≤ w + 1
      · have hF1len : ((bucket.filter (fun u => decide (t - u < 1))).filter
            (fun u => inWindow w u)).length
            = (bucket.filter (fun u => inWindow w u)).length := by
          rw [filter_window_of_le bucket w t ht1]
        by_cases hadm : 120 < (bucket.filter (fun u => decide (t - u < 1))).length
        · have hstep : rateStep bucket t
              = (false, bucket.filter (fun u => decide (t - u < 1))) := by
            unfold rateStep
            rw [if_pos hadm]
          have hEq : (rateRun bucket (t :: rest)).2
              = (rateRun (bucket.filter (fun u => decide (t - u < 1))) rest).2 := by
            rw [rateRun_cons, hstep]
            rfl
          rcases ih htail (bucket.filter (fun u => decide (t - u < 1)))
              (by rw [hF1len]; exact hpre) with hIH | hIH
          · left
            rw [hEq]
            rw [hF1len] at hIH
            exact hIH
          · left
            rw [hEq]
            have hnil : ((rateRun (bucket.filter (fun u => decide (t - u < 1))) rest).2.filter
                (fun u => inWindow w u)) = [] := by
              rw [List.filter_eq_nil_iff]
              intro u hu
              simp [hIH u (rateRun_subset rest _ u hu)]
            rw [hnil]
            simpa using hpre
        · have hstep : rateStep bucket t
              = (true, bucket.filter (fun u => decide (t - u < 1)) ++ [t]) := by
            unfold rateStep
            rw [if_neg hadm]
          have hEq : (rateRun bucket (t :: rest)).2
              = t :: (rateRun (bucket.filter (fun u => decide (t - u < 1)) ++ [t]) rest).2 := by
            rw [rateRun_cons, hstep]
            rfl
          have hb120 : (bucket.filter (fun u => inWindow w u)).length ≤ 120 := by
            rw [← hF1len]
            exact le_trans (List.length_filter_le _ _) (not_lt.1 hadm)
          have hsing : (List.filter (fun u => inWindow w u) [t]).length ≤ 1 :=
            le_trans (List.length_filter_le _ _) (by simp)
          have hpre2 : (((bucket.filter (fun u => decide (t - u < 1))) ++ [t]).filter
              (fun u => inWindow w u)).length ≤ 121 := by
            rw [List.filter_append, List.length_append, hF1len]
            omega
          rcases ih htail _ hpre2 with hIH | hIH
          · left
            rw [hEq, List.filter_cons]
            rw [List.filter_append, List.length_append, hF1len] at hIH
            by_cases hW : inWindow w t = true
            · rw [if_pos hW]
              have hsing1 : (List.filter (fun u => inWindow w u) [t]).length = 1 := by
                simp [hW]
              rw [hsing1] at hIH
              simp only [List.length_cons]
              omega
            · rw [if_neg hW]
              omega
          · left
            have hnil : ((rateRun (bucket.filter (fun u => decide (t - u < 1)) ++ [t])
                rest).2.filter (fun u => inWindow w u)) = [] := by
              rw [List.filter_eq_nil_iff]
              intro u hu
              simp [hIH u (rateRun_subset rest _ u hu)]
            rw [hEq, List.filter_cons, hnil]
            by_cases hW : inWindow w t = true
            · rw [if_pos hW]
              simp only [List.length_cons, List.length_nil]
              omega
            · rw [if_neg hW]
              simp only [List.length_nil]
              omega
      · right
        intro t' ht'
        have htw : w + 1 < t := not_le.1 ht1
        rcases List.mem_cons.1 ht' with rfl | hmem
        · unfold inWindow
          rw [decide_eq_false (not_le.2 htw)]
          simp
        · have htt : t ≤ t' := hhead t' hmem
          unfold inWindow
          rw [decide_eq_false (not_le.2 (lt_of_lt_of_le htw htt))]
          simp

/-- Buckets of other addresses are untouched by a rate decision. -/
lemma rcGet_rcSet_ne (rc : List ((String × Nat) × List Rat)) (a a' : String × Nat)
    (bucket : List Rat) (h : ¬ a' = a) :
    rcGet (rcSet rc a bucket) a' = rcGet rc a' := by
  have hk0 : (a == a') = false := by
    rw [beq_eq_false_iff_ne]
    exact fun hc => h hc.symm
  have hfind : ∀ l : List ((String × Nat) × List Rat),
      (l.map (fun kv => if kv.1 == a then (kv.1, bucket) else kv)).find?
          (fun kv => kv.1 == a')
        = l.find? (fun kv => kv.1 == a') := by
    intro l
    induction l with
    | nil => rfl
    | cons kv rest ihl =>
        simp only [List.map_cons]
        by_cases hk : kv.1 = a
        · have hk' : (kv.1 == a') = false := by
            rw [hk]
            exact hk0
          rw [if_pos (by simpa using hk)]
          rw [List.find?_cons_of_neg _ (by simp [hk']),
            List.find?_cons_of_neg _ (by simp [hk'])]
          exact ihl
        · rw [if_neg (by simpa using hk)]
          cases hk2 : (kv.1 == a')
          · rw [List.find?_cons_of_neg _ (by simp [hk2]),
              List.find?_cons_of_neg _ (by simp [hk2])]
            exact ihl
          · rw [List.find?_cons_of_pos _ (by simp [hk2]),
              List.find?_cons_of_pos _ (by simp [hk2])]
  unfold rcSet
  split
  · unfold rcGet
    rw [hfind rc]
  · unfold rcGet
    rw [List.find?_append]
    have hnone : ([(a, bucket)].find? (fun kv => kv.1 == a')) = none := by
      rw [List.find?_cons_of_neg _ (by simp [hk0])]
      rfl
    rw [hnone]
    cases hrc : rc.find? (fun kv => kv.1 == a')
    · rfl
    · rfl

/-- C7, amended: on a chronologically ordered arrival trace from one source
address, at most 121 datagrams are admitted within any one-second window —
the pruned bucket is compared with a strict > 120 before the current arrival
is appended, so the effective cap is 121, one more than the claimed 120 of
Policy's packets_per_sec (a constant _rate_allowed hardcodes rather than
reads from Policy) — every datagram beyond that is dropped with no reply, and
a rate decision for one address never touches the bucket of any other
address. -/
theorem c7_rate_limit_amended (w : Rat) (times : List Rat)
    (hsorted : List.Pairwise (fun a b => a ≤ b) times)
    (rc : List ((String × Nat) × List Rat)) (a a' : String × Nat) (now : Rat)
    (hne : ¬ a' = a) :
    (((rateRun [] times).2).filter (fun u => inWindow w u)).length ≤ 121 ∧
    rcGet (rateAllowed rc a now).2 a' = rcGet rc a' := by
  constructor
  · rcases rateRun_window w times hsorted [] (by simp) with h | h
    · simpa using h
    · have hnil : (((rateRun [] times).2).filter (fun u => inWindow w u)) = [] := by
        rw [List.filter_eq_nil_iff]
        intro u hu
        simp [h u (rateRun_subset times [] u hu)]
      simp [hnil]
  · exact rcGet_rcSet_ne rc a a' (rateStep (rcGet rc a) now).2 hne

/-- Witness for c7_rate_limit_amended: a concrete ordered trace and two
distinct addresses. -/
theorem c7_rate_limit_amended_witness :
    (((rateRun [] [(0 : Rat), 0, 1]).2).filter (fun u => inWindow 0 u)).length ≤ 121 ∧
    rcGet (rateAllowed [(("h", 1), [(0 : Rat)])] ("h", 1) 2).2 ("h", 2)
      = rcGet [(("h", 1), [(0 : Rat)])] ("h", 2) :=
  c7_rate_limit_amended 0 [(0 : Rat), 0, 1] (by decide)
    [(("h", 1), [(0 : Rat)])] ("h", 1) ("h", 2) 2 (by decide)

end Twansi
